import Mathlib

/-!
Verification of the libtarock rules engine (Slovenian tarock card game).

This file shallowly embeds the engine's data model and operations from the
Rust sources (`cards.rs`, `contracts.rs`, `player.rs`, `bidding.rs`,
`announcements.rs`, `bonuses.rs`, `game.rs`, `scoring.rs`) and proves or
refutes the specification claims about them.  Machine integers (`uint`,
`u64`, `int`) are modelled as `Nat`/`Int`, with explicit wrap-around where
the Rust code can wrap; `HashSet`/`Vec` collections become `List`s (the
hand sets are duplicate-free in every reachable state, so set membership,
removal and iteration coincide with their list counterparts); fallible
operations return an `Except` result paired with the post-state.
-/

namespace Libtarock

/-! ## Card model (`cards.rs`) -/

/-- Card suits, from `enum CardSuit` in `cards.rs`. -/
inductive CardSuit where
  | Clubs | Spades | Hearts | Diamonds
  deriving DecidableEq, Repr

/-- Ranks of suited cards, in the declaration order that drives the derived
`Ord` in `cards.rs` (Seven lowest, King highest). -/
inductive CardRank where
  | Seven | Eight | Nine | Ten | Jack | Knight | Queen | King
  deriving DecidableEq, Repr

/-- The 22 tarock (trump) ranks, in declaration order (`Tarock1` lowest,
`TarockSkis` highest), from `enum Tarock` in `cards.rs`. -/
inductive Tarock where
  | Tarock1 | Tarock2 | Tarock3 | Tarock4 | Tarock5 | Tarock6 | Tarock7
  | Tarock8 | Tarock9 | Tarock10 | Tarock11 | Tarock12 | Tarock13 | Tarock14
  | Tarock15 | Tarock16 | Tarock17 | Tarock18 | Tarock19 | Tarock20 | Tarock21
  | TarockSkis
  deriving DecidableEq, Repr

/-- A card is either a tarock or a suited card (`enum Card` in `cards.rs`). -/
inductive Card where
  | TarockCard (t : Tarock)
  | SuitCard (r : CardRank) (s : CardSuit)
  deriving DecidableEq, Repr

instance : Inhabited Card := ⟨.TarockCard .Tarock1⟩

namespace Card

/-- `Card::is_tarock`. -/
def isTarock : Card → Bool
  | .TarockCard _ => true
  | _ => false

/-- `Card::is_pagat` (the lowest tarock). -/
def isPagat : Card → Bool
  | .TarockCard .Tarock1 => true
  | _ => false

/-- `Card::is_mond` (the highest numbered tarock). -/
def isMond : Card → Bool
  | .TarockCard .Tarock21 => true
  | _ => false

/-- `Card::is_skis`. -/
def isSkis : Card → Bool
  | .TarockCard .TarockSkis => true
  | _ => false

/-- `Card::suit`: the suit of a suited card, `none` for tarocks. -/
def suit : Card → Option CardSuit
  | .SuitCard _ s => some s
  | .TarockCard _ => none

/-- `Card::value`: the point value of a card. -/
def value : Card → Nat
  | .SuitCard r _ =>
      match r with
      | .King => 5
      | .Queen => 4
      | .Knight => 3
      | .Jack => 2
      | _ => 0
  | .TarockCard t =>
      match t with
      | .Tarock1 => 5
      | .Tarock21 => 5
      | .TarockSkis => 5
      | _ => 0

/-- `Card::is_valuable`: `value() > 0`. -/
def isValuable (c : Card) : Bool := 0 < c.value

end Card

open Card

/-- Positional index of a suited rank, matching the derived `Ord` on
`CardRank` (declaration order). -/
def rankIdx : CardRank → Nat
  | .Seven => 0 | .Eight => 1 | .Nine => 2 | .Ten => 3
  | .Jack => 4 | .Knight => 5 | .Queen => 6 | .King => 7

/-- Positional index of a tarock rank, matching the derived `Ord` on
`Tarock` (declaration order). -/
def tarockIdx : Tarock → Nat
  | .Tarock1 => 0 | .Tarock2 => 1 | .Tarock3 => 2 | .Tarock4 => 3
  | .Tarock5 => 4 | .Tarock6 => 5 | .Tarock7 => 6 | .Tarock8 => 7
  | .Tarock9 => 8 | .Tarock10 => 9 | .Tarock11 => 10 | .Tarock12 => 11
  | .Tarock13 => 12 | .Tarock14 => 13 | .Tarock15 => 14 | .Tarock16 => 15
  | .Tarock17 => 16 | .Tarock18 => 17 | .Tarock19 => 18 | .Tarock20 => 19
  | .Tarock21 => 20 | .TarockSkis => 21

/-- The `PartialOrd for Card` comparison from `cards.rs`: tarocks beat
suited cards, suited cards of the same suit compare by rank, and a suited
card compares `Greater` against any suited card of a different suit (the
"first card of a trick wins between unrelated suits" convention).  The
source never returns `None`. -/
def cardCmpOpt : Card → Card → Option Ordering
  | .TarockCard _, .SuitCard _ _ => some .gt
  | .SuitCard _ _, .TarockCard _ => some .lt
  | .SuitCard r s, .SuitCard r' s' =>
      if s = s' then some (compare (rankIdx r) (rankIdx r'))
      else some .gt
  | .TarockCard t, .TarockCard t' => some (compare (tarockIdx t) (tarockIdx t'))

/-- `Ord for Card`: `partial_cmp(..).unwrap()`; the unwrap never fails. -/
def cardCmp (a b : Card) : Ordering := (cardCmpOpt a b).getD .eq

/-- Linear rank of a card among the cards eligible to win a trick (the led
suit's cards and the tarocks): on that subset the source's `Ord for Card`
coincides with comparing this number. -/
def cardKey : Card → Nat
  | .SuitCard r _ => rankIdx r
  | .TarockCard t => 8 + tarockIdx t

/-- Named card constants from `cards.rs` that the development refers to. -/
def CARD_TAROCK_PAGAT : Card := .TarockCard .Tarock1

def CARD_TAROCK_MOND : Card := .TarockCard .Tarock21

def CARD_TAROCK_SKIS : Card := .TarockCard .TarockSkis

/-- The fixed 54-card universe `CARDS` from `cards.rs`, in source order:
8 cards of each of the four suits, then the 22 tarocks. -/
def CARDS : List Card :=
  [ .SuitCard .Seven .Clubs, .SuitCard .Eight .Clubs, .SuitCard .Nine .Clubs,
    .SuitCard .Ten .Clubs, .SuitCard .Jack .Clubs, .SuitCard .Knight .Clubs,
    .SuitCard .Queen .Clubs, .SuitCard .King .Clubs,
    .SuitCard .Seven .Spades, .SuitCard .Eight .Spades, .SuitCard .Nine .Spades,
    .SuitCard .Ten .Spades, .SuitCard .Jack .Spades, .SuitCard .Knight .Spades,
    .SuitCard .Queen .Spades, .SuitCard .King .Spades,
    .SuitCard .Seven .Hearts, .SuitCard .Eight .Hearts, .SuitCard .Nine .Hearts,
    .SuitCard .Ten .Hearts, .SuitCard .Jack .Hearts, .SuitCard .Knight .Hearts,
    .SuitCard .Queen .Hearts, .SuitCard .King .Hearts,
    .SuitCard .Seven .Diamonds, .SuitCard .Eight .Diamonds, .SuitCard .Nine .Diamonds,
    .SuitCard .Ten .Diamonds, .SuitCard .Jack .Diamonds, .SuitCard .Knight .Diamonds,
    .SuitCard .Queen .Diamonds, .SuitCard .King .Diamonds,
    .TarockCard .Tarock1, .TarockCard .Tarock2, .TarockCard .Tarock3,
    .TarockCard .Tarock4, .TarockCard .Tarock5, .TarockCard .Tarock6,
    .TarockCard .Tarock7, .TarockCard .Tarock8, .TarockCard .Tarock9,
    .TarockCard .Tarock10, .TarockCard .Tarock11, .TarockCard .Tarock12,
    .TarockCard .Tarock13, .TarockCard .Tarock14, .TarockCard .Tarock15,
    .TarockCard .Tarock16, .TarockCard .Tarock17, .TarockCard .Tarock18,
    .TarockCard .Tarock19, .TarockCard .Tarock20, .TarockCard .Tarock21,
    .TarockCard .TarockSkis ]

/-! ## Pile scoring (`Pile::score` in `cards.rs`)

A `Pile` is a `Vec<Card>`; `score` walks `cards.chunks(3)`.  `chunks3`
reproduces the slice `chunks(3)` iterator: consecutive groups of three, the
final group holding the 1 or 2 leftovers when the length is not a multiple
of three. -/

/-- The groups produced by `cards.chunks(3)`. -/
def chunks3 : List Card → List (List Card)
  | a :: b :: c :: rest => [a, b, c] :: chunks3 rest
  | [] => []
  | l => [l]

/-- Sum of `Card::value` over a group (`group.iter().map(|c| c.value()).sum()`). -/
def sumValues (l : List Card) : Nat := (l.map Card.value).sum

/-- Number of point-bearing cards in a group
(`group.iter().filter(|c| c.is_valuable()).count()`). -/
def numValuable (l : List Card) : Nat := (l.filter Card.isValuable).length

/-- The per-group contribution inside the loop of `Pile::score`:
groups of more than one card score `1` when their value sum is `0` and
`sum - (valuable_count - 1)` otherwise; a single-card group scores
`sum - 1` when it holds a point card and `0` otherwise. -/
def groupScore (g : List Card) : Nat :=
  let s := sumValues g
  let v := numValuable g
  if 1 < g.length then
    if s = 0 then 1 else s - (v - 1)
  else
    if 0 < v then s - 1 else 0

/-- `Pile::score`: the total over all `chunks(3)` groups. -/
def pileScore (cards : List Card) : Nat :=
  ((chunks3 cards).map groupScore).sum

example : pileScore CARDS = 70 := by decide

end Libtarock

namespace Libtarock

/-- Equality of `Result`/`Except` values is decidable componentwise; used to
evaluate concrete operation results. -/
instance {ε α : Type _} [DecidableEq ε] [DecidableEq α] : DecidableEq (Except ε α) :=
  fun x y =>
    match x, y with
    | .error a, .error b =>
        if h : a = b then .isTrue (by rw [h]) else .isFalse (by simp [h])
    | .error _, .ok _ => .isFalse (by simp)
    | .ok _, .error _ => .isFalse (by simp)
    | .ok a, .ok b =>
        if h : a = b then .isTrue (by rw [h]) else .isFalse (by simp [h])

/-! ## Contracts (`contracts.rs`) -/

/-- `enum ContractType`. -/
inductive ContractType where
  | Three | Two | One
  deriving DecidableEq, Repr

/-- `beggar::Type`. -/
inductive BeggarType where
  | Normal | Open
  deriving DecidableEq, Repr

/-- `valat::Type`. -/
inductive ValatType where
  | Normal | Color
  deriving DecidableEq, Repr

/-- `enum Contract`. -/
inductive Contract where
  | Klop
  | Standard (t : ContractType)
  | Solo (t : ContractType)
  | Beggar (b : BeggarType)
  | SoloWithout
  | Valat (v : ValatType)
  deriving DecidableEq, Repr

namespace Contract

/-- `Contract::is_klop`. -/
def isKlop : Contract → Bool
  | .Klop => true
  | _ => false

/-- `Contract::value`: the fixed point value of each contract. -/
def value : Contract → Int
  | .Klop => 70
  | .Standard .Three => 10
  | .Standard .Two => 20
  | .Standard .One => 30
  | .Solo .Three => 40
  | .Solo .Two => 50
  | .Solo .One => 60
  | .Beggar .Normal => 70
  | .SoloWithout => 80
  | .Beggar .Open => 90
  | .Valat .Color => 125
  | .Valat .Normal => 250

/-- `Contract::is_normal`, exactly as the match in `contracts.rs` reads:
only `Standard(Three)`, `Solo(Three)` and `SoloWithout` are matched (the
function's own comment claims all three `Standard` and `Solo` tiers are
normal; see the claim about `bonuses_allowed`). -/
def isNormal : Contract → Bool
  | .Standard .Three => true
  | .Solo .Three => true
  | .SoloWithout => true
  | _ => false

end Contract

/-- Contract constants from `contracts.rs`. -/
def KLOP : Contract := .Klop

def STANDARD_THREE : Contract := .Standard .Three

def STANDARD_TWO : Contract := .Standard .Two

def STANDARD_ONE : Contract := .Standard .One

def SOLO_THREE : Contract := .Solo .Three

def SOLO_TWO : Contract := .Solo .Two

def SOLO_ONE : Contract := .Solo .One

def SOLO_WITHOUT : Contract := .SoloWithout

/-! ## Trick-winner strategies (`contracts.rs`) -/

/-- `contains_trula` from `contracts.rs`: a flag-accumulating loop over the
cards; the source's early `break` once all three flags are set does not
change the computed conjunction. -/
def containsTrula (cards : List Card) : Bool :=
  let flags := cards.foldl
    (fun (st : Bool × Bool × Bool) card =>
      (st.1 || card.isPagat, st.2.1 || card.isMond, st.2.2 || card.isSkis))
    (false, false, false)
  flags.1 && flags.2.1 && flags.2.2

/-- The `enumerate().filter(cond).max_by(card)` part of `find_winner`: a left
fold keeping the current best, replacing it only when a later candidate
compares strictly greater (ties keep the earlier candidate; tricks hold
distinct cards, so ties between candidates do not occur anyway). -/
def maxByCard (first : Nat × Card) (rest : List (Nat × Card)) : Nat × Card :=
  rest.foldl (fun best x => if cardCmp x.2 best.2 = .gt then x else best) first

/-- `find_winner` from `contracts.rs`: among the cards satisfying `cond`
(with respect to the suit of the first card played) the maximal one wins,
unless that winner is a tarock and the trick contains the full trula, in
which case the position of the pagat wins.  The source indexes `cards[0]`
and unwraps the maximum and the pagat search; on inputs where those would
panic (never reached through the game) this total model returns index 0. -/
def findWinner (cards : List Card) (cond : Card → Option CardSuit → Bool) : Nat :=
  let playedSuit : Option CardSuit :=
    match cards with
    | [] => none
    | c :: _ => c.suit
  let cands := cards.enum.filter (fun ic => cond ic.2 playedSuit)
  match cands with
  | [] => 0
  | c :: cs =>
      let best := maxByCard c cs
      if best.2.isTarock && containsTrula cards then
        ((cards.enum.find? (fun ic => ic.2.isPagat)).map Prod.fst).getD 0
      else
        best.1

/-- The candidate condition of `standard_winner_strategy`: cards of the led
suit and all tarocks. -/
def standardCond (card : Card) (suit : Option CardSuit) : Bool :=
  card.suit == suit || card.isTarock

/-- `standard_winner_strategy`. -/
def standardWinnerStrategy (cards : List Card) : Nat :=
  findWinner cards standardCond

/-! ## Standard move validator (`standard_move_validator` in `contracts.rs`) -/

/-- A hand is the card set of one player (`Hand` wraps a `HashSet<Card>`;
duplicate-free in every reachable state, modelled as a list). -/
abbrev Hand := List Card

/-- `Hand::has_tarock`. -/
def handHasTarock (hand : Hand) : Bool := hand.any Card.isTarock

/-- `Hand::has_suit`. -/
def handHasSuit (hand : Hand) (s : CardSuit) : Bool :=
  hand.any (fun card => card.suit == some s)

/-- `standard_move_validator`: with an empty trick, or a card whose suit
equals the led card's suit (`None` for a led tarock), anything goes;
otherwise a suited card is legal only when the hand holds no tarock, and a
tarock is legal only when the hand holds no card of the led suit. -/
def standardMoveValidator (hand : Hand) (trick : List Card) (card : Card) : Bool :=
  let suit := trick.head?.bind Card.suit
  if trick.isEmpty || suit == card.suit then
    true
  else
    match card.suit with
    | some _ => !(handHasTarock hand)
    | none => (suit.map (fun s => !(handHasSuit hand s))).getD true

/-! ## Turn rotation (`PlayerTurn` in `player.rs`) -/

/-- `PlayerId` is `u64` in the source; the ids handled by the engine stay far
below `2^64`, and the one place the source does wrapping `uint` arithmetic on
ids (`player_priority`) is modelled with its explicit wrap below. -/
abbrev PlayerId := Nat

/-- `struct PlayerTurn`. -/
structure PlayerTurn where
  currentIndex : Nat
  numPlayers : Nat
  startedWith : PlayerId
  players : List PlayerId
  deriving DecidableEq, Repr

namespace PlayerTurn

/-- `PlayerTurn::start_with`. -/
def startWith (numPlayers : Nat) (first : PlayerId) : PlayerTurn :=
  { currentIndex := first
    numPlayers := numPlayers
    startedWith := first
    players := List.range numPlayers }

/-- `PlayerTurn::current_players`. -/
def currentPlayers (t : PlayerTurn) : Nat := t.players.length

/-- `PlayerTurn::current`; the source indexes the roster and would panic on
an out-of-range cursor, which no reachable state produces. -/
def current (t : PlayerTurn) : PlayerId := t.players.getD t.currentIndex 0

/-- `PlayerTurn::next`: advance the cursor cyclically. -/
def next (t : PlayerTurn) : PlayerTurn :=
  { t with currentIndex := (t.currentIndex + 1) % t.players.length }

/-- `PlayerTurn::remove`: drop the participant under the cursor unless it is
the last one, then clamp the cursor with a modulus. -/
def remove (t : PlayerTurn) : PlayerTurn :=
  if 1 < t.players.length then
    let players := t.players.eraseIdx t.currentIndex
    { t with players := players, currentIndex := t.currentIndex % players.length }
  else t

end PlayerTurn

/-! ## Bidding (`bidding.rs`) -/

/-- `bidding::Success`. -/
inductive BSuccess where
  | Next (p : PlayerId)
  | Last
  deriving DecidableEq, Repr

/-- `bidding::BidError`. -/
inductive BidError where
  | NotPlayersTurn | ContractTooLow | InvalidContract | MustBid | Done
  deriving DecidableEq, Repr

/-- `struct Bid`. -/
structure Bid where
  player : PlayerId
  playerPriority : Nat
  contract : Contract
  deriving DecidableEq, Repr

/-- `struct Bidder`. -/
structure Bidder where
  forehand : PlayerId
  done : Bool
  highest : Bid
  turn : PlayerTurn
  deriving DecidableEq, Repr

/-- `DEFAULT_CONTRACT` in `bidding.rs`. -/
def DEFAULT_CONTRACT : Contract := STANDARD_THREE

/-- `player_priority`: `(*player as uint - *turn.started_with() as uint)` is
wrapping `uint` (64-bit) subtraction, then `(pos_diff + num_players - 1) %
num_players`, whose intermediate sum also wraps.  Because `num_players = 4`
divides `2^64`, the wrap never changes the residue. -/
def playerPriority (turn : PlayerTurn) (player : PlayerId) : Nat :=
  let posDiff := (player + 2 ^ 64 - turn.startedWith % 2 ^ 64) % 2 ^ 64
  ((posDiff + turn.numPlayers - 1) % 2 ^ 64) % turn.numPlayers

/-- `is_bid_valid`: a bid from a priority not later than the incumbent's may
match the incumbent's contract value, a strictly later priority must exceed
it (`Contract`'s `PartialOrd` compares by `value()`). -/
def isBidValid (highest wanted : Bid) : Bool :=
  if wanted.playerPriority ≤ highest.playerPriority then
    highest.contract.value ≤ wanted.contract.value
  else
    highest.contract.value < wanted.contract.value

namespace Bidder

/-- `Bidder::new`: skip the dealer, give the forehand the default bid, skip
the forehand. -/
def new (dealer : PlayerId) : Bidder :=
  let turn := PlayerTurn.startWith 4 dealer
  let turn := turn.next
  let highest : Bid :=
    { player := turn.current
      playerPriority := playerPriority turn turn.current
      contract := DEFAULT_CONTRACT }
  let forehand := turn.current
  let turn := turn.next
  { forehand := forehand, done := false, highest := highest, turn := turn }

/-- `Bidder::has_no_bets`. -/
def hasNoBets (b : Bidder) (player : PlayerId) : Bool :=
  b.forehand == player && b.highest.contract == DEFAULT_CONTRACT

/-- `Bidder::next_player`: once a single bidder remains and acts, bidding is
done; otherwise apply the supplied rotation step and report the new current
player. -/
def nextPlayer (b : Bidder) (f : PlayerTurn → PlayerTurn) : BSuccess × Bidder :=
  if b.turn.currentPlayers == 1 then
    (.Last, { b with done := true })
  else
    let turn := f b.turn
    (.Next turn.current, { b with turn := turn })

/-- `Bidder::bid`. -/
def bid (b : Bidder) (player : PlayerId) (contract : Contract) :
    Except BidError BSuccess × Bidder :=
  let wanted : Bid :=
    { player := b.turn.current
      playerPriority := playerPriority b.turn player
      contract := contract }
  if b.done then (.error .Done, b)
  else if b.turn.current ≠ player then (.error .NotPlayersTurn, b)
  else if contract.isKlop && !(b.hasNoBets player) then (.error .InvalidContract, b)
  else if !(isBidValid b.highest wanted) then (.error .ContractTooLow, b)
  else
    let r := nextPlayer { b with highest := wanted } PlayerTurn.next
    (.ok r.1, r.2)

/-- `Bidder::pass`. -/
def pass (b : Bidder) (player : PlayerId) : Except BidError BSuccess × Bidder :=
  if b.done then (.error .Done, b)
  else if b.turn.current ≠ player then (.error .NotPlayersTurn, b)
  else if b.hasNoBets player || b.turn.currentPlayers == 1 then (.error .MustBid, b)
  else
    let r := nextPlayer b PlayerTurn.remove
    (.ok r.1, r.2)

end Bidder

end Libtarock

namespace Libtarock

/-! ## Players (`player.rs`) and bonuses (`bonuses.rs`) -/

/-- `enum BonusType`. -/
inductive BonusType where
  | Trula | Kings | KingUltimo | PagatUltimo | Valat
  deriving DecidableEq, Repr

/-- `struct Player`: id, hand, declared bonuses, pile of won cards and an
optional partner (the fields the claims exercise). -/
structure Player where
  id : PlayerId
  hand : Hand
  bids : List BonusType
  pile : List Card
  partner : Option PlayerId
  deriving DecidableEq, Repr

instance : Inhabited Player := ⟨⟨0, [], [], [], none⟩⟩

/-- `Player::new`. -/
def Player.new (id : PlayerId) (hand : Hand) : Player :=
  { id := id, hand := hand, bids := [], pile := [], partner := none }

/-- `Hand::has_card` (`HashSet::contains`). -/
def handHasCard (hand : Hand) (card : Card) : Bool := hand.contains card

/-- `has_king` from `bonuses.rs`: the player holds the king of the called
suit; `false` when no king was called. -/
def hasKing (player : Player) (king : Option CardSuit) : Bool :=
  (king.map (fun s => handHasCard player.hand (.SuitCard .King s))).getD false

/-- `has_pagat` from `bonuses.rs`. -/
def hasPagat (player : Player) : Bool := handHasCard player.hand CARD_TAROCK_PAGAT

/-- `valid_bonuses` from `bonuses.rs`: Trula, Kings and Valat always;
KingUltimo only with the called king in hand; PagatUltimo only with the
pagat in hand.  The source builds a `HashSet`; the model lists the same
elements. -/
def validBonuses (player : Player) (king : Option CardSuit) : List BonusType :=
  [BonusType.Trula, BonusType.Kings, BonusType.Valat]
    ++ (if hasKing player king then [BonusType.KingUltimo] else [])
    ++ (if hasPagat player then [BonusType.PagatUltimo] else [])

/-- `bonuses_allowed` from `bonuses.rs`: delegates to `Contract::is_normal`. -/
def bonusesAllowed (contract : Contract) : Bool := contract.isNormal

/-- `check_bonuses_valid` from `announcements.rs`: the announced set must be
a subset of the player's valid bonuses. -/
def checkBonusesValid (player : Player) (bonuses : List BonusType)
    (king : Option CardSuit) : Bool :=
  bonuses.all (fun bt => (validBonuses player king).contains bt)

/-! ## Announcements (`announcements.rs`) -/

/-- `announcements::Success`. -/
inductive ASuccess where
  | Last
  | Next (p : PlayerId)
  deriving DecidableEq, Repr

/-- `announcements::AnnounceError`. -/
inductive AnnounceError where
  | Done | NotPlayersTurn | InvalidBonus
  deriving DecidableEq, Repr

/-- `struct Announcements`. -/
structure Announcements where
  turn : PlayerTurn
  done : Bool
  king : Option CardSuit
  deriving DecidableEq, Repr

namespace Announcements

/-- `Announcements::new`: rotation of the four players seeded at the
declarer, no called king. -/
def new (declarer : Player) : Announcements :=
  { turn := PlayerTurn.startWith 4 declarer.id, done := false, king := none }

/-- `Announcements::with_king`. -/
def withKing (declarer : Player) (king : CardSuit) : Announcements :=
  { new declarer with king := some king }

/-- `Announcements::next_player`: drop the player who just acted from the
rotation, or finish once only one remained. -/
def nextPlayer (a : Announcements) : ASuccess × Announcements :=
  if 1 < a.turn.currentPlayers then
    let turn := a.turn.remove
    (.Next turn.current, { a with turn := turn })
  else
    (.Last, { a with done := true })

/-- `Announcements::announce`. -/
def announce (a : Announcements) (player : Player) (bonuses : List BonusType) :
    Except AnnounceError ASuccess × Announcements :=
  if a.done then (.error .Done, a)
  else if a.turn.current ≠ player.id then (.error .NotPlayersTurn, a)
  else if !(checkBonusesValid player bonuses a.king) then (.error .InvalidBonus, a)
  else
    let r := a.nextPlayer
    (.ok r.1, r.2)

/-- `Announcements::pass`. -/
def pass (a : Announcements) (player : Player) :
    Except AnnounceError ASuccess × Announcements :=
  if a.done then (.error .Done, a)
  else if a.turn.current ≠ player.id then (.error .NotPlayersTurn, a)
  else
    let r := a.nextPlayer
    (.ok r.1, r.2)

end Announcements

/-! ## Trick play (`game.rs`) -/

/-- `game::Success`. -/
inductive GSuccess where
  | Next (p : PlayerId)
  | Last
  deriving DecidableEq, Repr

/-- `game::MoveError`. -/
inductive MoveError where
  | NotPlayersTurn | InvalidCard | Done
  deriving DecidableEq, Repr

/-- `struct StandardGame` (the `players` slice is part of the modelled
state). -/
structure StandardGame where
  players : List Player
  contractType : ContractType
  calledKing : CardSuit
  trick : List Card
  turn : PlayerTurn
  talon : List Card
  trickNumber : Nat
  done : Bool
  deriving DecidableEq, Repr

/-- Apply `f` to the list entry at index `i` (no-op out of range), used for
the in-place updates of one player in the `players` slice. -/
def listModify {α : Type _} (l : List α) (i : Nat) (f : α → α) : List α :=
  match l.get? i with
  | some x => l.set i (f x)
  | none => l

namespace StandardGame

/-- `StandardGame::new`: rotation hard-seeded at player 1, empty trick,
trick counter 1. -/
def new (players : List Player) (ty : ContractType) (king : CardSuit)
    (talon : List Card) : StandardGame :=
  { players := players
    contractType := ty
    calledKing := king
    trick := []
    turn := PlayerTurn.startWith 4 1
    talon := talon
    trickNumber := 1
    done := false }

/-- `StandardGame::current_player`: the player indexed by the rotation's
current id (the source would panic on a missing index). -/
def currentPlayer (g : StandardGame) : Player := g.players.getD g.turn.current default

/-- `to_player_index` from `game.rs`. -/
def toPlayerIndex (turn : PlayerTurn) (cardIndex : Nat) : Nat :=
  (turn.startedWith + cardIndex) % turn.numPlayers

/-- `StandardGame::play_card`:
reject when done, out of turn, or the move validator refuses the card
(there is no hand-membership check); otherwise remove the card from the
current hand, append it to the trick, and either resolve a completed
four-card trick (move it to the winner's pile, reseed the rotation at the
winner, bump the trick counter and finish when the winner's hand is empty)
or advance the rotation. -/
def playCard (g : StandardGame) (player : PlayerId) (card : Card) :
    Except MoveError GSuccess × StandardGame :=
  if g.done then (.error .Done, g)
  else if player ≠ g.turn.current then (.error .NotPlayersTurn, g)
  else if !(standardMoveValidator g.currentPlayer.hand g.trick card) then
    (.error .InvalidCard, g)
  else
    let g1 := { g with
      players := listModify g.players g.turn.current
        (fun p => { p with hand := p.hand.erase card }) }
    let trick := g1.trick ++ [card]
    if trick.length == 4 then
      let winnerIdx := standardWinnerStrategy trick
      let pIdx := toPlayerIndex g1.turn winnerIdx
      let winnerId := (g1.players.getD pIdx default).id
      let g2 := { g1 with
        players := listModify g1.players pIdx (fun p => { p with pile := p.pile ++ trick })
        trick := []
        turn := PlayerTurn.startWith 4 winnerId
        trickNumber := g1.trickNumber + 1 }
      let g3 := { g2 with done := g2.currentPlayer.hand.isEmpty }
      if g3.done then (.ok .Last, g3) else (.ok (.Next g3.turn.current), g3)
    else
      let turn := g1.turn.next
      (.ok (.Next turn.current), { g1 with trick := trick, turn := turn })

end StandardGame

end Libtarock

namespace Libtarock

/-! ## Scoring (`scoring.rs`)

`scoring.rs` imports `HALF_POINTS` from the final iteration of `cards.rs`,
whose file is not part of this snapshot (the snapshot's `cards.rs` predates
it).  Modelled from the spec: `HALF_POINTS` is half of the 70-point deck
total ("the total exceeds 35 (half of 70)"; a Klop loser has "score below
−35"), so `HALF_POINTS = 35`. -/

def HALF_POINTS : Int := 35

/-- `is_winner` from `scoring.rs`: a Klop score of exactly 0. -/
def isWinner (score : Int) : Bool := score == 0

/-- `is_loser` from `scoring.rs`: a Klop score below `-HALF_POINTS`. -/
def isLoser (score : Int) : Bool := score < -HALF_POINTS

/-- `is_winner_loser` from `scoring.rs`. -/
def isWinnerLoser (score : Int) : Bool := isWinner score || isLoser score

/-! ### `round_score` and its f64 arithmetic

`round_score` is `(score as f64 / 5.0).round() as int * 5`.  The model below
is a bit-exact embedding of the two IEEE-754 binary64 operations involved,
written in integer (mantissa and power-of-two scale) arithmetic so the
kernel can evaluate it:
* `score as f64` rounds the integer to the nearest binary64 value (53-bit
  significand, round-to-nearest, ties-to-even): exact below `2^53`,
  otherwise rounded to the nearest multiple of the ulp (`flNat`).
* the f64 division by `5.0` is correctly rounded: it computes the binary64
  value nearest to the exact quotient `u / 5` (ties to even).
* `.round()` is `f64::round`: nearest integer, ties away from zero.
All three operations are odd functions, so `roundScore` computes on the
absolute value and restores the sign, exactly as the f64 pipeline would.
The final `as int` conversion of the integral rounded double and the `* 5`
in 64-bit `int` are exact at every magnitude a game score can reach.
Exponent overflow/subnormals are out of reach for `int` inputs. -/

/-- Fuelled floor base-2 logarithm on `Nat` (the fuel makes the recursion
structural so the kernel can evaluate it). -/
def log2fuel : Nat → Nat → Nat
  | 0, _ => 0
  | fuel + 1, n => if n < 2 then 0 else log2fuel fuel (n / 2) + 1

/-- Floor base-2 logarithm: the greatest `e` with `2 ^ e ≤ n` (for `n ≥ 1`). -/
def natLog2 (n : Nat) : Nat := log2fuel n n

/-- Fuelled ceiling base-2 logarithm on `Nat`. -/
def clog2fuel : Nat → Nat → Nat
  | 0, _ => 0
  | fuel + 1, n => if n ≤ 1 then 0 else clog2fuel fuel ((n + 1) / 2) + 1

/-- Ceiling base-2 logarithm: the least `c` with `n ≤ 2 ^ c` (for `n ≥ 1`). -/
def natClog2 (n : Nat) : Nat := clog2fuel n n

/-- Round the nonnegative rational `n / d` to the nearest integer, ties to
even (the IEEE-754 significand rounding). -/
def roundNEnd (n d : Nat) : Nat :=
  let f := n / d
  let r := n % d
  if 2 * r < d then f
  else if d < 2 * r then f + 1
  else if f % 2 = 0 then f else f + 1

/-- The binary64 value nearest to a nonnegative integer (`score as f64`):
exact below `2^53`; above, the unit in the last place is `2 ^ (e - 52)`
where `e` is the floor log2, and the integer is rounded to the nearest
multiple of it, ties to even. -/
def flNat (n : Nat) : Nat :=
  if n = 0 then 0
  else
    let e := natLog2 n
    if e ≤ 52 then n
    else roundNEnd n (2 ^ (e - 52)) * 2 ^ (e - 52)

/-- `(u as f64 / 5.0).round()` for a nonnegative integer `u` that is itself
a binary64 value.  The exact quotient `u / 5` lies in
`[2 ^ e, 2 ^ (e + 1))`; the correctly rounded division returns the nearest
multiple `m` of `2 ^ (e - 52)` (ties to even), and `f64::round` then takes
that binary64 value `m * 2 ^ (e - 52)` to the nearest integer, ties away
from zero (for a nonnegative value, `floor (x + 1/2)`). -/
def roundQuotFifth (u : Nat) : Nat :=
  if u = 0 then 0
  else
    let e : Int := if 5 ≤ u then (natLog2 (u / 5) : Int) else -(natClog2 ((u + 4) / u) : Int)
    if e ≤ 52 then
      let j := (52 - e).toNat
      let m := roundNEnd (u * 2 ^ j) 5
      (2 * m + 2 ^ j) / 2 ^ (j + 1)
    else
      let j := (e - 52).toNat
      let m := roundNEnd u (5 * 2 ^ j)
      m * 2 ^ j

/-- The f64 pipeline of `round_score` on a nonnegative integer. -/
def roundScoreNat (n : Nat) : Nat := roundQuotFifth (flNat n) * 5

/-- `round_score` from `scoring.rs`:
`(score as f64 / 5.0).round() as int * 5` under the bit-exact f64 model
above (computed on the absolute value; all the f64 steps are odd). -/
def roundScore (score : Int) : Int :=
  if 0 ≤ score then (roundScoreNat score.toNat : Int)
  else -(roundScoreNat (-score).toNat : Int)

/-! ### Klop scoring -/

/-- `score_klop` from `scoring.rs`, over the Klop scoring players (all four
players, in id order).  The result models the returned
`HashMap<PlayerId, int>` as an association list keyed by the (distinct)
player ids: every player's raw score is the negated value of their own
pile; if nobody is a winner or loser all raw scores stand, rounded;
otherwise only winners and losers are kept, at plus/minus the Klop contract
value. -/
def scoreKlop (players : List Player) : List (PlayerId × Int) :=
  let scores := players.map (fun p => (p.id, -(pileScore p.pile : Int)))
  let winnerLoser := scores.any (fun s => isWinnerLoser s.2)
  if !winnerLoser then
    scores.map (fun s => (s.1, roundScore s.2))
  else
    (scores.filter (fun s => isWinnerLoser s.2)).map
      (fun s => (s.1, if isWinner s.2 then Contract.Klop.value else -Contract.Klop.value))

end Libtarock

namespace Libtarock

/-! ## Definitions used only to state claims -/

/-- The pile-scoring formula exactly as the specification claim words it
(for comparison with `pileScore`): full groups of three score `1` on a zero
sum and `sum - (valuable - 1)` otherwise; every trailing group of fewer
than three cards scores `sum - 1` when it holds a point card and `0`
otherwise. -/
def claimGroupScore (g : List Card) : Nat :=
  let s := sumValues g
  let v := numValuable g
  if g.length = 3 then
    if s = 0 then 1 else s - (v - 1)
  else
    if 0 < v then s - 1 else 0

/-- Pile score as the specification claim describes it. -/
def claimPileScore (cards : List Card) : Nat :=
  ((chunks3 cards).map claimGroupScore).sum

/-- The amended per-group formula: a trailing group of two cards is scored
with the full-group formula (this is what the code does); only a trailing
single card uses the `sum - 1` / `0` trailing rule. -/
def amendedGroupScore (g : List Card) : Nat :=
  let s := sumValues g
  let v := numValuable g
  if 2 ≤ g.length then
    if s = 0 then 1 else s - (v - 1)
  else
    if 0 < v then s - 1 else 0

/-- Pile score as the amended claim describes it. -/
def amendedPileScore (cards : List Card) : Nat :=
  ((chunks3 cards).map amendedGroupScore).sum

/-- An abstract turn-rotation operation: `advance` (`PlayerTurn::next`) or
`drop_current` (`PlayerTurn::remove`), for quantifying over arbitrary
operation sequences. -/
inductive TurnOp where
  | advance
  | dropCurrent
  deriving DecidableEq, Repr

/-- Apply one rotation operation. -/
def turnStep (t : PlayerTurn) : TurnOp → PlayerTurn
  | .advance => t.next
  | .dropCurrent => t.remove

/-- Run a sequence of rotation operations. -/
def runTurnOps (t : PlayerTurn) (ops : List TurnOp) : PlayerTurn :=
  ops.foldl turnStep t

/-- A fresh four-player standard game where it is player 1's turn, the
trick is empty and player 1's hand holds only the tarock 10. -/
def freshGameTarock10 : StandardGame :=
  StandardGame.new [Player.new 0 [], Player.new 1 [.TarockCard .Tarock10],
    Player.new 2 [], Player.new 3 [CARD_TAROCK_MOND]] .Three .Hearts []

end Libtarock

namespace Libtarock

/-! ## Helper lemmas -/

/-- Removing an index from a list shortens it by at most one. -/
theorem length_eraseIdx_ge {α : Type _} (l : List α) (i : Nat) :
    l.length - 1 ≤ (l.eraseIdx i).length := by
  induction l generalizing i with
  | nil => simp
  | cons a t ih =>
      cases i with
      | zero => simp
      | succ n =>
          have := ih n
          simp only [List.eraseIdx_cons_succ, List.length_cons]
          omega

/-- Neither rotation operation can empty a nonempty roster. -/
theorem turnStep_pos (t : PlayerTurn) (op : TurnOp) (h : 1 ≤ t.currentPlayers) :
    1 ≤ (turnStep t op).currentPlayers := by
  cases op with
  | advance => simpa [turnStep, PlayerTurn.next, PlayerTurn.currentPlayers] using h
  | dropCurrent =>
      simp only [turnStep, PlayerTurn.remove]
      split
      · simp only [PlayerTurn.currentPlayers] at *
        have := length_eraseIdx_ge t.players t.currentIndex
        omega
      · exact h

/-- A nonempty roster stays nonempty under any operation sequence. -/
theorem runTurnOps_pos (ops : List TurnOp) (t : PlayerTurn) (h : 1 ≤ t.currentPlayers) :
    1 ≤ (runTurnOps t ops).currentPlayers := by
  induction ops generalizing t with
  | nil => exact h
  | cons op rest ih => exact ih (turnStep t op) (turnStep_pos t op h)

/-! ## Claim theorems -/

/-- C9: after `start(num_players, first)` with `num_players ≥ 1`, no
sequence of `advance`/`drop_current` operations ever empties the roster
(`remaining_count() ≥ 1`), and `drop_current` on a single-participant
roster is a no-op, leaving that participant current. -/
theorem turn_rotation_roster_invariant :
    (∀ (n : Nat) (first : PlayerId) (ops : List TurnOp), 1 ≤ n →
      1 ≤ (runTurnOps (PlayerTurn.startWith n first) ops).currentPlayers) ∧
    (∀ t : PlayerTurn, t.currentPlayers = 1 → t.remove = t) := by
  constructor
  · intro n first ops hn
    apply runTurnOps_pos
    simpa [PlayerTurn.startWith, PlayerTurn.currentPlayers] using hn
  · intro t h
    simp only [PlayerTurn.remove, PlayerTurn.currentPlayers] at *
    rw [if_neg]
    omega

/-- Witness for C9: a concrete four-player rotation with repeated drops
never empties, and removing from a singleton roster changes nothing. -/
theorem turn_rotation_roster_invariant_witness :
    (1 ≤ (runTurnOps (PlayerTurn.startWith 4 0)
      [TurnOp.dropCurrent, TurnOp.dropCurrent, TurnOp.dropCurrent,
       TurnOp.dropCurrent, TurnOp.advance]).currentPlayers) ∧
    (PlayerTurn.startWith 1 0).remove = PlayerTurn.startWith 1 0 :=
  ⟨turn_rotation_roster_invariant.1 4 0 _ (by decide),
   turn_rotation_roster_invariant.2 _ (by decide)⟩

/-- C8: every error return of the bidding, announcement and trick-play
operations leaves the component's state exactly as it was before the
call. -/
theorem error_atomicity :
    (∀ (b : Bidder) (p : PlayerId) (c : Contract) (e : BidError),
      (b.bid p c).1 = .error e → (b.bid p c).2 = b) ∧
    (∀ (b : Bidder) (p : PlayerId) (e : BidError),
      (b.pass p).1 = .error e → (b.pass p).2 = b) ∧
    (∀ (a : Announcements) (pl : Player) (bs : List BonusType) (e : AnnounceError),
      (a.announce pl bs).1 = .error e → (a.announce pl bs).2 = a) ∧
    (∀ (a : Announcements) (pl : Player) (e : AnnounceError),
      (a.pass pl).1 = .error e → (a.pass pl).2 = a) ∧
    (∀ (g : StandardGame) (p : PlayerId) (c : Card) (e : MoveError),
      (g.playCard p c).1 = .error e → (g.playCard p c).2 = g) := by
  refine ⟨?_, ?_, ?_, ?_, ?_⟩
  · intro b p c e h
    simp only [Bidder.bid] at h ⊢
    split_ifs at h ⊢ <;> simp_all
  · intro b p e h
    simp only [Bidder.pass] at h ⊢
    split_ifs at h ⊢ <;> simp_all
  · intro a pl bs e h
    simp only [Announcements.announce] at h ⊢
    split_ifs at h ⊢ <;> simp_all
  · intro a pl e h
    simp only [Announcements.pass] at h ⊢
    split_ifs at h ⊢ <;> simp_all
  · intro g p c e h
    simp only [StandardGame.playCard] at h ⊢
    split_ifs at h ⊢ <;> simp_all

/-- Witness for C8: concrete rejected calls of each operation leave the
concrete states untouched. -/
theorem error_atomicity_witness :
    ((Bidder.new 0).bid 1 STANDARD_TWO).2 = Bidder.new 0 ∧
    ((Bidder.new 0).pass 1).2 = Bidder.new 0 ∧
    ((Announcements.new (Player.new 0 [])).announce (Player.new 1 []) [BonusType.Trula]).2
      = Announcements.new (Player.new 0 []) ∧
    ((Announcements.new (Player.new 0 [])).pass (Player.new 1 [])).2
      = Announcements.new (Player.new 0 []) ∧
    ((StandardGame.new [Player.new 0 [], Player.new 1 [], Player.new 2 [],
        Player.new 3 []] .Three .Hearts []).playCard 0 CARD_TAROCK_PAGAT).2
      = StandardGame.new [Player.new 0 [], Player.new 1 [], Player.new 2 [],
        Player.new 3 []] .Three .Hearts [] :=
  ⟨error_atomicity.1 _ 1 STANDARD_TWO .NotPlayersTurn (by decide),
   error_atomicity.2.1 _ 1 .NotPlayersTurn (by decide),
   error_atomicity.2.2.1 _ (Player.new 1 []) [BonusType.Trula] .NotPlayersTurn (by decide),
   error_atomicity.2.2.2.1 _ (Player.new 1 []) .NotPlayersTurn (by decide),
   error_atomicity.2.2.2.2 _ 0 CARD_TAROCK_PAGAT .NotPlayersTurn (by decide)⟩

/-- C7: `bonuses_allowed` (via `Contract::is_normal`) accepts only
`Standard(Three)`, `Solo(Three)` and `SoloWithout`; it rejects
`Standard(Two)`, `Standard(One)`, `Solo(Two)` and `Solo(One)`, although
both the claim and the source comment on `is_normal` ("Normal contracts are
Three, Two, One, Solo Three, Solo Two and Solo One") include every
`Standard`/`Solo` tier. -/
theorem bonuses_allowed_eval :
    bonusesAllowed (.Standard .Two) = false ∧
    bonusesAllowed (.Standard .One) = false ∧
    bonusesAllowed (.Solo .Two) = false ∧
    bonusesAllowed (.Solo .One) = false ∧
    bonusesAllowed (.Standard .Three) = true ∧
    bonusesAllowed (.Solo .Three) = true ∧
    bonusesAllowed .SoloWithout = true ∧
    bonusesAllowed .Klop = false ∧
    bonusesAllowed (.Beggar .Normal) = false := by decide

/-- C3: `play_card` does not check hand membership.  In a fresh game where
it is player 1's turn, the trick is empty and player 1's hand is exactly
`{Tarock 10}`, playing the king of hearts (absent from the hand) is
accepted with `Ok(Next(2))` and the foreign card is appended to the trick,
where the claim (and the intent documented by the repository's own test
comment) requires `InvalidCard`. -/
theorem play_card_missing_hand_check :
    handHasCard (freshGameTarock10.players.getD 1 default).hand
      (.SuitCard .King .Hearts) = false ∧
    freshGameTarock10.trick = [] ∧
    freshGameTarock10.done = false ∧
    freshGameTarock10.turn.current = 1 ∧
    (freshGameTarock10.playCard 1 (.SuitCard .King .Hearts)).1 = .ok (.Next 2) ∧
    (freshGameTarock10.playCard 1 (.SuitCard .King .Hearts)).2.trick
      = [.SuitCard .King .Hearts] := by
  decide

/-- Counterexample for C2: the pile holding just the seven and eight of
clubs (one trailing two-card group, no point cards).  The claim's formula
awards a trailing group with no point-bearing card `0`, but `Pile::score`
treats every group of more than one card with the full-group formula and
awards `1`. -/
theorem pile_score_formula_cex :
    pileScore [.SuitCard .Seven .Clubs, .SuitCard .Eight .Clubs] = 1 ∧
    claimPileScore [.SuitCard .Seven .Clubs, .SuitCard .Eight .Clubs] = 0 := by
  decide

/-- C2 (amended): `Pile::score` scores every group of two or three cards
with the full-group formula (1 on a zero sum, else `sum - (valuable - 1)`);
only a trailing single card uses the trailing rule (`sum - 1` with a point
card, else 0). -/
theorem pile_score_formula_amended :
    ∀ cards : List Card, pileScore cards = amendedPileScore cards := by
  intro cards
  have hg : ∀ g : List Card, groupScore g = amendedGroupScore g := by
    intro g
    simp only [groupScore, amendedGroupScore]
    rfl
  simp only [pileScore, amendedPileScore]
  induction chunks3 cards with
  | nil => rfl
  | cons g gs ih => simp [hg, ih]

end Libtarock

namespace Libtarock

/-- C1 (amended): when `bid`'s preliminary checks pass (bidding not done,
it is the caller's turn, and the Klop restriction does not apply), the bid
succeeds exactly when the priority rule holds — a bidder whose priority is
less than or equal to the incumbent bidder's priority may bid a contract of
equal or greater value, while a bidder with strictly greater (later)
priority must bid a strictly greater value — and otherwise `bid` returns
`ContractTooLow`.  (The original claim stated the two priority cases the
other way round.) -/
theorem bid_priority_rule (b : Bidder) (player : PlayerId) (contract : Contract)
    (hdone : b.done = false)
    (hcur : b.turn.current = player)
    (hklop : (contract.isKlop && !(b.hasNoBets player)) = false) :
    ((b.bid player contract).1.isOk = true ↔
      (if playerPriority b.turn player ≤ b.highest.playerPriority
       then b.highest.contract.value ≤ contract.value
       else b.highest.contract.value < contract.value)) ∧
    (¬(if playerPriority b.turn player ≤ b.highest.playerPriority
       then b.highest.contract.value ≤ contract.value
       else b.highest.contract.value < contract.value) →
      (b.bid player contract).1 = .error .ContractTooLow) := by
  subst hcur
  by_cases hrule : (if playerPriority b.turn b.turn.current ≤ b.highest.playerPriority
       then b.highest.contract.value ≤ contract.value
       else b.highest.contract.value < contract.value)
  · constructor
    · simp only [Bidder.bid, hdone, isBidValid, Bidder.nextPlayer]
      split_ifs <;> simp_all [Except.isOk, Except.toBool]
    · intro hc
      exact absurd hrule hc
  · constructor
    · simp only [Bidder.bid, hdone, isBidValid, Bidder.nextPlayer]
      split_ifs <;> simp_all [Except.isOk, Except.toBool]
    · intro _
      simp only [Bidder.bid, hdone, isBidValid]
      split_ifs <;> simp_all

/-- Counterexample for C1 as originally stated: with dealer 0, after
player 2 bids Standard(Two) and players 3 and 0 pass, the forehand
(player 1, priority 0 ≤ incumbent priority 1) bids Standard(Two) — equal
value, not strictly greater — and the code accepts it (`Ok(Next(2))`,
mirroring the repository's own `forehand_player_can_bid_contracts_of_
equal_or_higher_value` test), where the original claim requires
`ContractTooLow`. -/
theorem bid_priority_rule_cex :
    let b0 := Bidder.new 0
    let b1 := (b0.bid 2 STANDARD_TWO).2
    let b2 := (b1.pass 3).2
    let b3 := (b2.pass 0).2
    playerPriority b3.turn 1 ≤ b3.highest.playerPriority ∧
    b3.highest.contract = STANDARD_TWO ∧
    ¬(b3.highest.contract.value < STANDARD_TWO.value) ∧
    b3.done = false ∧ b3.turn.current = 1 ∧
    (b3.bid 1 STANDARD_TWO).1 = .ok (.Next 2) := by decide

/-- Witness for C1: in a fresh four-player bidding round with dealer 0,
the current player 2 successfully outbids the forehand's default contract
with Solo(One). -/
theorem bid_priority_rule_witness :
    ((Bidder.new 0).bid 2 SOLO_ONE).1.isOk = true :=
  (bid_priority_rule (Bidder.new 0) 2 SOLO_ONE (by decide) (by decide) (by decide)).1.mpr
    (by decide)

end Libtarock

namespace Libtarock

/-- Every point-bearing card is worth at least 2 points. -/
theorem value_two_le (c : Card) (h : c.isValuable = true) : 2 ≤ c.value := by
  cases c with
  | TarockCard t => cases t <;> simp_all [Card.isValuable, Card.value]
  | SuitCard r s => cases r <;> simp_all [Card.isValuable, Card.value]

/-- A card that is not point-bearing is worth 0. -/
theorem value_zero (c : Card) (h : c.isValuable = false) : c.value = 0 := by
  simp only [Card.isValuable, decide_eq_false_iff_not, Nat.not_lt, Nat.le_zero] at h
  exact h

/-- Twice the point-bearing count bounds the value sum of any card group. -/
theorem two_mul_numValuable_le (g : List Card) : 2 * numValuable g ≤ sumValues g := by
  induction g with
  | nil => simp [numValuable, sumValues]
  | cons c t ih =>
      cases hc : c.isValuable with
      | true =>
          have := value_two_le c hc
          simp only [numValuable, sumValues, List.filter_cons, hc, List.length_cons,
            List.map_cons, List.sum_cons, if_pos] at *
          omega
      | false =>
          have := value_zero c hc
          simp only [numValuable, sumValues, List.filter_cons, hc, List.map_cons,
            List.sum_cons, Bool.false_eq_true, if_false] at *
          omega

/-- A group without point-bearing cards sums to 0. -/
theorem sumValues_eq_zero (g : List Card) (h : numValuable g = 0) : sumValues g = 0 := by
  induction g with
  | nil => simp [sumValues]
  | cons c t ih =>
      cases hc : c.isValuable with
      | true => simp [numValuable, List.filter_cons, hc] at h
      | false =>
          have := value_zero c hc
          simp only [numValuable, List.filter_cons, hc, Bool.false_eq_true, if_false] at h
          simp only [sumValues, List.map_cons, List.sum_cons] at *
          rw [ih h]
          omega

/-- The uniform form of the per-group score: every group contributes its
value sum minus its point-bearing count, plus one extra point when the
group has more than one card. -/
theorem groupScore_add (g : List Card) :
    groupScore g + numValuable g
      = sumValues g + (if 1 < g.length then 1 else 0) := by
  have hb := two_mul_numValuable_le g
  have hz := sumValues_eq_zero g
  have hlen : numValuable g ≤ g.length := List.length_filter_le _ _
  simp only [groupScore]
  split_ifs <;> omega

/-- Value sums are additive over concatenation. -/
theorem sumValues_append (l1 l2 : List Card) :
    sumValues (l1 ++ l2) = sumValues l1 + sumValues l2 := by
  simp [sumValues]

/-- Point-bearing counts are additive over concatenation. -/
theorem numValuable_append (l1 l2 : List Card) :
    numValuable (l1 ++ l2) = numValuable l1 + numValuable l2 := by
  simp [numValuable]

/-- Closed form of `Pile::score`: the score plus the pile's point-bearing
count equals its value sum plus the number of groups of two or more cards
(which depends only on the pile's length). -/
theorem score_identity : ∀ l : List Card,
    pileScore l + numValuable l
      = sumValues l + (l.length / 3 + if l.length % 3 = 2 then 1 else 0)
  | a :: b :: c :: rest => by
      have ih := score_identity rest
      have hgs := groupScore_add [a, b, c]
      norm_num at hgs
      have hs := sumValues_append [a, b, c] rest
      have hv := numValuable_append [a, b, c] rest
      simp only [List.cons_append, List.nil_append] at hs hv
      simp only [pileScore] at ih ⊢
      simp only [chunks3, List.map_cons, List.sum_cons]
      rw [hs, hv]
      simp only [List.length_cons]
      have hmm : (rest.length + 1 + 1 + 1) % 3 = rest.length % 3 := by omega
      simp only [hmm]
      split_ifs with h3
      · simp only [if_pos h3] at ih
        omega
      · simp only [if_neg h3] at ih
        omega
  | [] => by simp [pileScore, chunks3, numValuable, sumValues]
  | [a] => by
      have hgs := groupScore_add [a]
      norm_num at hgs
      simp only [pileScore, chunks3, List.map_cons, List.map_nil, List.sum_cons,
        List.sum_nil, List.length_cons, List.length_nil]
      norm_num
      omega
  | [a, b] => by
      have hgs := groupScore_add [a, b]
      norm_num at hgs
      simp only [pileScore, chunks3, List.map_cons, List.map_nil, List.sum_cons,
        List.sum_nil, List.length_cons, List.length_nil]
      norm_num
      omega

/-- The 54-card deck carries 71 card points in total. -/
theorem sumValues_CARDS : sumValues CARDS = 71 := by decide

/-- The 54-card deck holds 19 point-bearing cards. -/
theorem numValuable_CARDS : numValuable CARDS = 19 := by decide

/-- C4: for every split of the 54-card deck into two complementary piles
(each card in exactly one pile, any internal order — i.e. the two piles
concatenate to a permutation of `CARDS`), the two `score()` values sum
to 70. -/
theorem pile_partition_sum_70 (l1 l2 : List Card) (h : (l1 ++ l2).Perm CARDS) :
    pileScore l1 + pileScore l2 = 70 := by
  have h1 := score_identity l1
  have h2 := score_identity l2
  have hs : sumValues l1 + sumValues l2 = 71 := by
    have hp : sumValues (l1 ++ l2) = sumValues CARDS := by
      simp only [sumValues]
      exact (h.map Card.value).sum_eq
    rw [sumValues_append, sumValues_CARDS] at hp
    exact hp
  have hv : numValuable l1 + numValuable l2 = 19 := by
    have hp : numValuable (l1 ++ l2) = numValuable CARDS := by
      simp only [numValuable]
      exact (h.filter Card.isValuable).length_eq
    rw [numValuable_append, numValuable_CARDS] at hp
    exact hp
  have hl : l1.length + l2.length = 54 := by
    have := h.length_eq
    simpa using this
  have hb : (l1.length / 3 + if l1.length % 3 = 2 then 1 else 0)
      + (l2.length / 3 + if l2.length % 3 = 2 then 1 else 0) = 18 := by
    split_ifs <;> omega
  omega

/-- Witness for C4: splitting the deck after 30 cards gives two piles whose
scores sum to 70. -/
theorem pile_partition_sum_70_witness :
    pileScore (CARDS.take 30) + pileScore (CARDS.drop 30) = 70 :=
  pile_partition_sum_70 _ _ (by rw [List.take_append_drop])

end Libtarock

namespace Libtarock


/-- The flag-accumulating fold of `contains_trula` computes the disjunction
of each flag with the corresponding card test over the whole list. -/
theorem trulaFold_spec (cards : List Card) (p m s : Bool) :
    (cards.foldl (fun (st : Bool × Bool × Bool) card =>
      (st.1 || card.isPagat, st.2.1 || card.isMond, st.2.2 || card.isSkis)) (p, m, s))
      = (p || cards.any Card.isPagat, m || cards.any Card.isMond, s || cards.any Card.isSkis) := by
  induction cards generalizing p m s with
  | nil => simp
  | cons c t ih =>
      simp only [List.foldl_cons, List.any_cons, ih, Bool.or_assoc]

/-- `contains_trula` holds exactly when the pagat, the mond and the skis
all appear. -/
theorem containsTrula_eq (cards : List Card) :
    containsTrula cards
      = (cards.any Card.isPagat && cards.any Card.isMond && cards.any Card.isSkis) := by
  simp [containsTrula, trulaFold_spec]

/-- Suited ranks occupy positions 0 through 7. -/
theorem rankIdx_lt (r : CardRank) : rankIdx r < 8 := by
  cases r <;> simp [rankIdx]

/-- Comparison of naturals is invariant under a common left shift. -/
theorem compare_add_left (k a b : Nat) : compare (k + a) (k + b) = compare a b := by
  rcases Nat.lt_trichotomy a b with h | h | h
  · rw [Nat.compare_eq_lt.2 h, Nat.compare_eq_lt.2 (by omega)]
  · subst h
    rw [Nat.compare_eq_eq.2 rfl, Nat.compare_eq_eq.2 rfl]
  · rw [Nat.compare_eq_gt.2 h, Nat.compare_eq_gt.2 (by omega)]

/-- On cards eligible to win a trick (led suit or tarock), the source's
`Ord for Card` agrees with comparing `cardKey`. -/
theorem cmp_key (led : Option CardSuit) (x y : Card)
    (hx : standardCond x led = true) (hy : standardCond y led = true) :
    cardCmp x y = compare (cardKey x) (cardKey y) := by
  cases x with
  | TarockCard t =>
      cases y with
      | TarockCard t' => simp [cardCmp, cardCmpOpt, cardKey, compare_add_left]
      | SuitCard r' s' =>
          have h1 := rankIdx_lt r'
          have h2 : compare (cardKey (Card.TarockCard t)) (cardKey (Card.SuitCard r' s')) = .gt := by
            apply Nat.compare_eq_gt.2
            simp only [cardKey]
            omega
          simp [cardCmp, cardCmpOpt, h2]
  | SuitCard r s =>
      cases y with
      | TarockCard t' =>
          have h1 := rankIdx_lt r
          have h2 : compare (cardKey (Card.SuitCard r s)) (cardKey (Card.TarockCard t')) = .lt := by
            apply Nat.compare_eq_lt.2
            simp only [cardKey]
            omega
          simp [cardCmp, cardCmpOpt, h2]
      | SuitCard r' s' =>
          simp only [standardCond, Card.suit, Card.isTarock, Bool.or_false] at hx hy
          have hss : s = s' := by
            have hx' : led = some s := by
              cases led with
              | none => simp at hx
              | some u => simpa using (beq_iff_eq.mp hx).symm
            have hy' : led = some s' := by
              cases led with
              | none => simp at hy
              | some u => simpa using (beq_iff_eq.mp hy).symm
            rw [hx'] at hy'
            exact Option.some.inj hy'
          simp [cardCmp, cardCmpOpt, cardKey, hss]



/-- The `max_by` fold returns one of its inputs. -/
theorem maxByCard_mem (c : Nat × Card) (cs : List (Nat × Card)) :
    maxByCard c cs ∈ c :: cs := by
  induction cs generalizing c with
  | nil => simp [maxByCard]
  | cons x xs ih =>
      simp only [maxByCard, List.foldl_cons]
      have h := ih (if cardCmp x.2 c.2 = .gt then x else c)
      simp only [maxByCard] at h
      rcases List.mem_cons.mp h with h1 | h1
      · rw [h1]
        split <;> simp
      · simp [h1]

/-- The `max_by` result of eligible candidates is eligible. -/
theorem maxByCard_cond (led : Option CardSuit) (c : Nat × Card) (cs : List (Nat × Card))
    (hall : ∀ x ∈ c :: cs, standardCond x.2 led = true) :
    standardCond (maxByCard c cs).2 led = true :=
  hall _ (maxByCard_mem c cs)

/-- The `max_by` fold over eligible candidates returns a candidate of
maximal key. -/
theorem maxByCard_max (led : Option CardSuit) (c : Nat × Card) (cs : List (Nat × Card))
    (hall : ∀ x ∈ c :: cs, standardCond x.2 led = true) :
    ∀ x ∈ c :: cs, cardKey x.2 ≤ cardKey (maxByCard c cs).2 := by
  induction cs generalizing c with
  | nil =>
      intro x hx
      simp only [List.mem_singleton] at hx
      simp [maxByCard, hx]
  | cons y ys ih =>
      intro x hx
      have hcy : standardCond c.2 led = true := hall c (by simp)
      have hyy : standardCond y.2 led = true := hall y (by simp)
      have hstep : maxByCard c (y :: ys) = maxByCard (if cardCmp y.2 c.2 = .gt then y else c) ys := by
        simp [maxByCard]
      have hall' : ∀ z ∈ (if cardCmp y.2 c.2 = .gt then y else c) :: ys, standardCond z.2 led = true := by
        intro z hz
        rcases List.mem_cons.mp hz with h1 | h1
        · subst h1
          split <;> assumption
        · exact hall z (by simp [h1])
      have hkey : cardKey c.2 ≤ cardKey (if cardCmp y.2 c.2 = .gt then y else c).2 ∧
          cardKey y.2 ≤ cardKey (if cardCmp y.2 c.2 = .gt then y else c).2 := by
        rw [cmp_key led y.2 c.2 hyy hcy]
        split
        · rename_i hgt
          have := Nat.compare_eq_gt.1 hgt
          omega
        · rename_i hgt
          rw [Nat.compare_eq_gt] at hgt
          omega
      rcases List.mem_cons.mp hx with h1 | h1
      · subst h1
        calc cardKey x.2 ≤ cardKey (if cardCmp y.2 x.2 = .gt then y else x).2 := hkey.1
          _ ≤ _ := by
              rw [hstep]
              exact ih _ hall' _ (by simp)
      · rcases List.mem_cons.mp h1 with h2 | h2
        · subst h2
          calc cardKey x.2 ≤ cardKey (if cardCmp x.2 c.2 = .gt then x else c).2 := hkey.2
            _ ≤ _ := by
                rw [hstep]
                exact ih _ hall' _ (by simp)
        · rw [hstep]
          exact ih _ hall' _ (by simp [h2])



/-- Only the lowest tarock satisfies `is_pagat`. -/
theorem isPagat_eq (c : Card) (h : c.isPagat = true) : c = CARD_TAROCK_PAGAT := by
  cases c with
  | TarockCard t => cases t <;> simp_all [Card.isPagat, CARD_TAROCK_PAGAT]
  | SuitCard r s => simp [Card.isPagat] at h

/-- C6: for every non-empty trick, `standard_winner_strategy` returns an
index inside the trick; when the trick holds the full trula the winning
card is the pagat (the highest eligible candidate is then necessarily a
tarock, since tarocks are always eligible and outrank suited cards, so the
override of the claim always fires); otherwise the winning card is
eligible (led suit or tarock) and no eligible card in the trick ranks
strictly above it under the source's card ordering. -/
theorem standard_winner_spec (cards : List Card) (hne : cards ≠ []) :
    standardWinnerStrategy cards < cards.length ∧
    (containsTrula cards = true →
      cards.getD (standardWinnerStrategy cards) default = CARD_TAROCK_PAGAT) ∧
    (containsTrula cards = false →
      standardCond (cards.getD (standardWinnerStrategy cards) default)
        ((cards.headD default).suit) = true ∧
      ∀ j < cards.length,
        standardCond (cards.getD j default) ((cards.headD default).suit) = true →
        cardCmp (cards.getD j default)
          (cards.getD (standardWinnerStrategy cards) default) ≠ .gt) := by
  cases cards with
  | nil => exact absurd rfl hne
  | cons c0 rest =>
    have hc0cond : standardCond c0 c0.suit = true := by
      simp [standardCond]
    have hmemc : (0, c0) ∈ ((c0 :: rest).enum.filter
        (fun ic => standardCond ic.2 c0.suit)) := by
      rw [List.mem_filter]
      constructor
      · rw [List.mk_mem_enum_iff_getElem?]
        simp
      · exact hc0cond
    cases hcs : ((c0 :: rest).enum.filter (fun ic => standardCond ic.2 c0.suit)) with
    | nil => rw [hcs] at hmemc; simp at hmemc
    | cons cbest crest =>
      have hmem_cands : ∀ x : Nat × Card, x ∈ cbest :: crest ↔
          ((c0 :: rest)[x.1]? = some x.2 ∧ standardCond x.2 c0.suit = true) := by
        intro x
        rw [← hcs, List.mem_filter, List.mem_enum_iff_getElem?]
      have hall : ∀ x ∈ cbest :: crest, standardCond x.2 c0.suit = true :=
        fun x hx => ((hmem_cands x).mp hx).2
      have hbest_mem := maxByCard_mem cbest crest
      have hbest := (hmem_cands _).mp hbest_mem
      have hmax := maxByCard_max c0.suit cbest crest hall
      have hstrat : standardWinnerStrategy (c0 :: rest) =
          (if (maxByCard cbest crest).2.isTarock && containsTrula (c0 :: rest) then
            (((c0 :: rest).enum.find? (fun ic => ic.2.isPagat)).map Prod.fst).getD 0
          else (maxByCard cbest crest).1) := by
        simp only [standardWinnerStrategy, findWinner]
        rw [hcs]
      rw [hstrat]
      simp only [List.headD_cons]
      by_cases htr : containsTrula (c0 :: rest) = true
      · -- the trula override: the maximal candidate is necessarily a tarock
        have hpagat_mem : CARD_TAROCK_PAGAT ∈ c0 :: rest := by
          rw [containsTrula_eq] at htr
          have h1 : (c0 :: rest).any Card.isPagat = true := by
            simp only [Bool.and_eq_true] at htr
            exact htr.1.1
          rcases List.any_eq_true.mp h1 with ⟨cp, hcp, hp⟩
          rwa [isPagat_eq cp hp] at hcp
        obtain ⟨ip, hip⟩ : ∃ i, (c0 :: rest)[i]? = some CARD_TAROCK_PAGAT :=
          List.mem_iff_getElem?.mp hpagat_mem
        have hpc : (ip, CARD_TAROCK_PAGAT) ∈ cbest :: crest :=
          (hmem_cands _).mpr ⟨hip, by simp [standardCond, CARD_TAROCK_PAGAT, Card.isTarock]⟩
        have hk := hmax _ hpc
        have hbt : (maxByCard cbest crest).2.isTarock = true := by
          cases hb2 : (maxByCard cbest crest).2 with
          | TarockCard t => simp [Card.isTarock]
          | SuitCard r s =>
              exfalso
              rw [hb2] at hk
              have := rankIdx_lt r
              simp only [cardKey, CARD_TAROCK_PAGAT] at hk
              omega
        rw [hbt, htr]
        simp only [Bool.and_self, if_true]
        have hfind : ((c0 :: rest).enum.find? (fun ic => ic.2.isPagat)).isSome := by
          rw [List.find?_isSome]
          refine ⟨(ip, CARD_TAROCK_PAGAT), ?_, by simp [CARD_TAROCK_PAGAT, Card.isPagat]⟩
          rw [List.mem_enum_iff_getElem?]
          exact hip
        obtain ⟨y, hy⟩ := Option.isSome_iff_exists.mp hfind
        have hyp : y.2.isPagat = true := by
          have := List.find?_some hy
          simpa using this
        have hymem : y ∈ (c0 :: rest).enum := List.mem_of_find?_eq_some hy
        rw [List.mem_enum_iff_getElem?] at hymem
        have hy2 : y.2 = CARD_TAROCK_PAGAT := isPagat_eq _ hyp
        rw [hy]
        simp only [Option.map_some', Option.getD_some]
        refine ⟨?_, ?_, ?_⟩
        · exact (List.getElem?_eq_some.mp hymem).1
        · intro _
          rw [List.getD_eq_getElem?_getD, hymem]
          simp [hy2]
        · intro hcontra
          simp at hcontra
      · have htr' : containsTrula (c0 :: rest) = false := by simpa using htr
        rw [htr']
        simp only [Bool.and_false, Bool.false_eq_true, if_false]
        have hidx_lt : (maxByCard cbest crest).1 < (c0 :: rest).length :=
          (List.getElem?_eq_some.mp hbest.1).1
        have hidxval : (c0 :: rest).getD (maxByCard cbest crest).1 default
            = (maxByCard cbest crest).2 := by
          rw [List.getD_eq_getElem?_getD, hbest.1]
          rfl
        refine ⟨hidx_lt, ?_, ?_⟩
        · intro hcontra
          exact hcontra.elim
        · intro _
          rw [hidxval]
          refine ⟨hbest.2, ?_⟩
          intro j hj hcond
          have hjget : (c0 :: rest)[j]? = some ((c0 :: rest).getD j default) := by
            rw [List.getD_eq_getElem?_getD, List.getElem?_eq_getElem hj]
            rfl
          have hjc : (j, (c0 :: rest).getD j default) ∈ cbest :: crest :=
            (hmem_cands _).mpr ⟨hjget, hcond⟩
          have hk := hmax _ hjc
          rw [cmp_key c0.suit _ _ hcond hbest.2]
          intro hgt
          rw [Nat.compare_eq_gt] at hgt
          simp only at hk hgt
          omega

/-- Witness for C6: the trick skis-mond-tarock6-pagat from the repository's
own tests contains the trula, so position 3 (the pagat) wins. -/
theorem standard_winner_spec_witness :
    standardWinnerStrategy [CARD_TAROCK_SKIS, CARD_TAROCK_MOND,
      Card.TarockCard .Tarock6, CARD_TAROCK_PAGAT]
      < ([CARD_TAROCK_SKIS, CARD_TAROCK_MOND,
          Card.TarockCard .Tarock6, CARD_TAROCK_PAGAT] : List Card).length ∧
    (containsTrula [CARD_TAROCK_SKIS, CARD_TAROCK_MOND,
        Card.TarockCard .Tarock6, CARD_TAROCK_PAGAT] = true →
      ([CARD_TAROCK_SKIS, CARD_TAROCK_MOND,
        Card.TarockCard .Tarock6, CARD_TAROCK_PAGAT] : List Card).getD
        (standardWinnerStrategy [CARD_TAROCK_SKIS, CARD_TAROCK_MOND,
          Card.TarockCard .Tarock6, CARD_TAROCK_PAGAT]) default = CARD_TAROCK_PAGAT) ∧
    (containsTrula [CARD_TAROCK_SKIS, CARD_TAROCK_MOND,
        Card.TarockCard .Tarock6, CARD_TAROCK_PAGAT] = false →
      standardCond (([CARD_TAROCK_SKIS, CARD_TAROCK_MOND,
          Card.TarockCard .Tarock6, CARD_TAROCK_PAGAT] : List Card).getD
          (standardWinnerStrategy [CARD_TAROCK_SKIS, CARD_TAROCK_MOND,
            Card.TarockCard .Tarock6, CARD_TAROCK_PAGAT]) default)
        ((([CARD_TAROCK_SKIS, CARD_TAROCK_MOND,
          Card.TarockCard .Tarock6, CARD_TAROCK_PAGAT] : List Card).headD default).suit) = true ∧
      ∀ j < ([CARD_TAROCK_SKIS, CARD_TAROCK_MOND,
          Card.TarockCard .Tarock6, CARD_TAROCK_PAGAT] : List Card).length,
        standardCond (([CARD_TAROCK_SKIS, CARD_TAROCK_MOND,
            Card.TarockCard .Tarock6, CARD_TAROCK_PAGAT] : List Card).getD j default)
          ((([CARD_TAROCK_SKIS, CARD_TAROCK_MOND,
            Card.TarockCard .Tarock6, CARD_TAROCK_PAGAT] : List Card).headD default).suit) = true →
        cardCmp (([CARD_TAROCK_SKIS, CARD_TAROCK_MOND,
            Card.TarockCard .Tarock6, CARD_TAROCK_PAGAT] : List Card).getD j default)
          (([CARD_TAROCK_SKIS, CARD_TAROCK_MOND,
            Card.TarockCard .Tarock6, CARD_TAROCK_PAGAT] : List Card).getD
            (standardWinnerStrategy [CARD_TAROCK_SKIS, CARD_TAROCK_MOND,
              Card.TarockCard .Tarock6, CARD_TAROCK_PAGAT]) default) ≠ .gt) :=
  standard_winner_spec [CARD_TAROCK_SKIS, CARD_TAROCK_MOND,
    Card.TarockCard .Tarock6, CARD_TAROCK_PAGAT] (by decide)

end Libtarock

namespace Libtarock


/-- A key absent from the association list's keys looks up to `none`. -/
theorem lookup_map_id_none {α : Type _} (l : List Player) (i : PlayerId) (g : Player → α)
    (h : ∀ q ∈ l, q.id ≠ i) :
    List.lookup i (l.map (fun q => (q.id, g q))) = none := by
  induction l with
  | nil => simp
  | cons a rest ih =>
      simp only [List.map_cons, List.lookup_cons]
      have hne : (i == a.id) = false := by
        simp only [beq_eq_false_iff_ne, ne_eq]
        exact fun he => h a (List.mem_cons_self a rest) he.symm
      rw [hne]
      exact ih (fun q hq => h q (List.mem_cons_of_mem _ hq))

/-- Looking up a player's id in the association list built from a filtered
player list (with distinct ids) yields the mapped value exactly when the
player passes the filter. -/
theorem lookup_filter_map {α : Type _} (players : List Player) (p : Player)
    (hnd : (players.map Player.id).Nodup) (hp : p ∈ players)
    (pred : Player → Bool) (g : Player → α) :
    List.lookup p.id ((players.filter pred).map (fun q => (q.id, g q)))
      = if pred p then some (g p) else none := by
  induction players with
  | nil => cases hp
  | cons a rest ih =>
      simp only [List.map_cons, List.nodup_cons] at hnd
      rcases List.mem_cons.mp hp with h1 | h1
      · subst h1
        by_cases hpred : pred p = true
        · simp only [List.filter_cons, hpred, if_pos, List.map_cons, List.lookup_cons,
            beq_self_eq_true, hpred]
        · have hpred' : pred p = false := by simpa using hpred
          simp only [List.filter_cons, hpred', Bool.false_eq_true, if_false]
          apply lookup_map_id_none
          intro q hq hqe
          exact hnd.1 (hqe ▸ List.mem_map_of_mem Player.id (List.mem_of_mem_filter hq))
      · have hane : (p.id == a.id) = false := by
          simp only [beq_eq_false_iff_ne, ne_eq]
          intro hbe
          exact hnd.1 (hbe ▸ List.mem_map_of_mem Player.id h1)
        have htail := ih hnd.2 h1
        simp only [List.filter_cons]
        by_cases hpa : pred a = true
        · simp only [hpa, if_pos, List.map_cons, List.lookup_cons]
          rw [hane]
          exact htail
        · have hpa' : pred a = false := by simpa using hpa
          simp only [hpa', Bool.false_eq_true, if_false]
          exact htail



/-- C5: in `score_klop`, with the four players' raw scores being the
negated values of their own piles, a player's entry in the result is: the
raw score rounded to the nearest multiple of 5 when nobody's score is
exactly 0 or below `-HALF_POINTS`; `+70` (the Klop contract value) when the
player's own score is exactly 0; `-70` when it is below `-35`; and no entry
otherwise. -/
theorem klop_scoring_spec (players : List Player)
    (hlen : players.length = 4)
    (hnd : (players.map Player.id).Nodup)
    (p : Player) (hp : p ∈ players) :
    List.lookup p.id (scoreKlop players)
      = (if ∀ q ∈ players, isWinnerLoser (-(pileScore q.pile : Int)) = false
         then some (roundScore (-(pileScore p.pile : Int)))
         else if -(pileScore p.pile : Int) = 0 then some Contract.Klop.value
         else if -(pileScore p.pile : Int) < -HALF_POINTS then some (-Contract.Klop.value)
         else none) := by
  simp only [scoreKlop]
  by_cases hwl : (players.map (fun q => (q.id, -(pileScore q.pile : Int)))).any
      (fun s => isWinnerLoser s.2) = true
  · have hnotall : ¬(∀ q ∈ players, isWinnerLoser (-(pileScore q.pile : Int)) = false) := by
      rcases List.any_eq_true.mp hwl with ⟨s, hs, hst⟩
      rcases List.mem_map.mp hs with ⟨q, hq, hqe⟩
      intro hall
      have := hall q hq
      rw [← hqe] at hst
      simp only at hst
      rw [this] at hst
      cases hst
    rw [if_neg hnotall]
    simp only [hwl, Bool.not_true, Bool.false_eq_true, if_false]
    simp only [List.filter_map, List.map_map, Function.comp_def]
    have := lookup_filter_map players p hnd hp
      (fun q => isWinnerLoser (-(pileScore q.pile : Int)))
      (fun q => if isWinner (-(pileScore q.pile : Int)) then Contract.Klop.value
                else -Contract.Klop.value)
    rw [this]
    by_cases hw : -(pileScore p.pile : Int) = 0
    · rw [if_pos (by simp [isWinnerLoser, isWinner, hw]), if_pos hw]
      simp [isWinner, hw]
    · by_cases hl : -(pileScore p.pile : Int) < -HALF_POINTS
      · rw [if_pos (by simp [isWinnerLoser, isWinner, isLoser, hl]), if_neg hw, if_pos hl]
        simp [isWinner, hw]
      · rw [if_neg (by simp [isWinnerLoser, isWinner, isLoser, hw, hl]), if_neg hw, if_neg hl]
  · have hwl' : (players.map (fun q => (q.id, -(pileScore q.pile : Int)))).any
        (fun s => isWinnerLoser s.2) = false := by simpa using hwl
    have hall : ∀ q ∈ players, isWinnerLoser (-(pileScore q.pile : Int)) = false := by
      intro q hq
      have := List.any_eq_false.mp hwl' (q.id, -(pileScore q.pile : Int))
        (List.mem_map_of_mem _ hq)
      simpa using this
    rw [if_pos hall]
    simp only [hwl', Bool.not_false, if_true]
    simp only [List.map_map, Function.comp_def]
    have hfilter : players.filter (fun _ => true) = players := List.filter_true players
    have := lookup_filter_map players p hnd hp (fun _ => true)
      (fun q => roundScore (-(pileScore q.pile : Int)))
    rw [hfilter] at this
    simp only [if_pos] at this
    rw [this]

/-- Witness for C5: the pile assignment of the repository's Klop test
(`every_player_is_scored_independently_in_klop`): player 0's pile is the
king of hearts, so their entry is `round_score(-4) = -5`. -/
theorem klop_scoring_spec_witness :
    List.lookup 0 (scoreKlop
      [{ id := 0, hand := [], bids := [], pile := [Card.SuitCard .King .Hearts], partner := none },
       { id := 1, hand := [], bids := [], pile := [Card.SuitCard .King .Spades, Card.SuitCard .Jack .Spades], partner := none },
       { id := 2, hand := [], bids := [], pile := [CARD_TAROCK_SKIS, Card.SuitCard .Eight .Clubs, Card.SuitCard .Jack .Hearts, Card.SuitCard .Queen .Spades, Card.TarockCard .Tarock14, Card.SuitCard .Knight .Hearts], partner := none },
       { id := 3, hand := [], bids := [], pile := [Card.SuitCard .King .Diamonds], partner := none }])
      = some (-5) :=
  (klop_scoring_spec
    [{ id := 0, hand := [], bids := [], pile := [Card.SuitCard .King .Hearts], partner := none },
     { id := 1, hand := [], bids := [], pile := [Card.SuitCard .King .Spades, Card.SuitCard .Jack .Spades], partner := none },
     { id := 2, hand := [], bids := [], pile := [CARD_TAROCK_SKIS, Card.SuitCard .Eight .Clubs, Card.SuitCard .Jack .Hearts, Card.SuitCard .Queen .Spades, Card.TarockCard .Tarock14, Card.SuitCard .Knight .Hearts], partner := none },
     { id := 3, hand := [], bids := [], pile := [Card.SuitCard .King .Diamonds], partner := none }]
    rfl (by decide)
    { id := 0, hand := [], bids := [], pile := [Card.SuitCard .King .Hearts], partner := none }
    (by decide)).trans (by decide)

end Libtarock

namespace Libtarock


/-- Lower-bound specification of the fuelled base-2 logarithm. -/
theorem log2fuel_lower : ∀ (fuel n : Nat), 1 ≤ n → n ≤ fuel → 2 ^ log2fuel fuel n ≤ n := by
  intro fuel
  induction fuel with
  | zero => intro n h1 h2; omega
  | succ fuel ih =>
      intro n h1 h2
      by_cases hn : n < 2
      · simp only [log2fuel, hn, if_pos]
        have : n = 1 := by omega
        simp [this]
      · simp only [log2fuel, hn, if_neg, if_false]
        have hrec := ih (n / 2) (by omega) (by omega)
        rw [pow_succ]
        omega

/-- Lower-bound specification of `natLog2`. -/
theorem natLog2_lower (n : Nat) (h : 1 ≤ n) : 2 ^ natLog2 n ≤ n :=
  log2fuel_lower n n h le_rfl

/-- Ties-to-even rounding of `n / 5` lands within half a unit:
`|5 * roundNEnd n 5 - n| ≤ 5/2`. -/
theorem roundNEnd_bound5 (n : Nat) :
    2 * (5 * roundNEnd n 5) ≤ 2 * n + 5 ∧ 2 * n ≤ 2 * (5 * roundNEnd n 5) + 5 := by
  simp only [roundNEnd]
  split_ifs <;> omega



/-- Below `5 * 2^50` the f64 division by 5 is accurate enough that
`(u as f64 / 5.0).round()` is exactly the integer nearest to `u / 5`
(remainders 0-2 round down, 3-4 round up): the significand scale is at
least `2^3`, so the rounded quotient sits within `1/16` of the exact one
and `f64::round` cannot be pushed across a half-integer. -/
theorem roundQuotFifth_eq (u : Nat) (h1 : 1 ≤ u) (h2 : u < 5 * 2 ^ 50) :
    roundQuotFifth u = (u + 2) / 5 := by
  have hu0 : ¬(u = 0) := by omega
  have he49 : (if 5 ≤ u then ((natLog2 (u / 5) : Nat) : Int)
      else -(natClog2 ((u + 4) / u) : Int)) ≤ 49 := by
    split_ifs with h5
    · have hq1 : 1 ≤ u / 5 := by omega
      have hlow := natLog2_lower (u / 5) hq1
      have hqlt : u / 5 < 2 ^ 50 := by omega
      have hplt : 2 ^ natLog2 (u / 5) < 2 ^ 50 := lt_of_le_of_lt hlow hqlt
      have hlt : natLog2 (u / 5) < 50 :=
        (Nat.pow_lt_pow_iff_right (by norm_num)).mp hplt
      omega
    · have h0 : (0:Int) ≤ (natClog2 ((u + 4) / u) : Int) := by positivity
      omega
  simp only [roundQuotFifth, hu0, if_false]
  obtain ⟨e, he⟩ : ∃ e : Int, (if 5 ≤ u then ((natLog2 (u / 5) : Nat) : Int)
      else -(natClog2 ((u + 4) / u) : Int)) = e := ⟨_, rfl⟩
  rw [he] at he49 ⊢
  rw [if_pos (by omega : e ≤ 52)]
  have hj3 : 3 ≤ (52 - e).toNat := by omega
  obtain ⟨j, hj⟩ : ∃ j : Nat, (52 - e).toNat = j := ⟨_, rfl⟩
  rw [hj] at hj3 ⊢
  have hP8 : 8 ≤ 2 ^ j := by
    calc (8:Nat) = 2 ^ 3 := by norm_num
    _ ≤ 2 ^ j := Nat.pow_le_pow_right (by norm_num) hj3
  rw [pow_succ]
  obtain ⟨P, hP⟩ : ∃ P : Nat, (2:Nat) ^ j = P := ⟨_, rfl⟩
  rw [hP] at hP8 ⊢
  have hb := roundNEnd_bound5 (u * P)
  obtain ⟨m, hm⟩ : ∃ m : Nat, roundNEnd (u * P) 5 = m := ⟨_, rfl⟩
  rw [hm] at hb ⊢
  obtain ⟨k, hk⟩ : ∃ k : Nat, u / 5 = k := ⟨_, rfl⟩
  have hr5 : u % 5 < 5 := by omega
  have hcase : u % 5 = 0 ∨ u % 5 = 1 ∨ u % 5 = 2 ∨ u % 5 = 3 ∨ u % 5 = 4 := by omega
  have hgoalr : (u + 2) / 5 = if 3 ≤ u % 5 then k + 1 else k := by
    split_ifs <;> omega
  rw [hgoalr]
  have hkp2 : k * (P * 2) = 2 * (k * P) := by ring
  have hkp3 : (k + 1) * (P * 2) = 2 * (k * P) + 2 * P := by ring
  have hkp4 : (k + 1 + 1) * (P * 2) = 2 * (k * P) + 4 * P := by ring
  rcases hcase with hc | hc | hc | hc | hc
  all_goals (
    first
    | rw [if_neg (by omega : ¬ 3 ≤ u % 5)]
    | rw [if_pos (by omega : 3 ≤ u % 5)])
  · have hur : u = 5 * k + 0 := by omega
    have hX : u * P = 5 * (k * P) + 0 * P := by rw [hur]; ring
    norm_num at hX
    apply Nat.div_eq_of_lt_le
    · rw [hkp2]; omega
    · rw [hkp3]; omega
  · have hur : u = 5 * k + 1 := by omega
    have hX : u * P = 5 * (k * P) + 1 * P := by rw [hur]; ring
    norm_num at hX
    apply Nat.div_eq_of_lt_le
    · rw [hkp2]; omega
    · rw [hkp3]; omega
  · have hur : u = 5 * k + 2 := by omega
    have hX : u * P = 5 * (k * P) + 2 * P := by rw [hur]; ring
    apply Nat.div_eq_of_lt_le
    · rw [hkp2]; omega
    · rw [hkp3]; omega
  · have hur : u = 5 * k + 3 := by omega
    have hX : u * P = 5 * (k * P) + 3 * P := by rw [hur]; ring
    apply Nat.div_eq_of_lt_le
    · rw [hkp3]; omega
    · rw [hkp4]; omega
  · have hur : u = 5 * k + 4 := by omega
    have hX : u * P = 5 * (k * P) + 4 * P := by rw [hur]; ring
    apply Nat.div_eq_of_lt_le
    · rw [hkp3]; omega
    · rw [hkp4]; omega



/-- Integers below `2^53` convert to f64 exactly. -/
theorem flNat_small (n : Nat) (h : n < 2 ^ 53) : flNat n = n := by
  by_cases h0 : n = 0
  · simp [flNat, h0]
  · have h1 : 1 ≤ n := by omega
    have hlow := natLog2_lower n h1
    have hplt : 2 ^ natLog2 n < 2 ^ 53 := lt_of_le_of_lt hlow h
    have hlt : natLog2 n < 53 := (Nat.pow_lt_pow_iff_right (by norm_num)).mp hplt
    simp only [flNat, h0, if_false]
    rw [if_pos (by omega : natLog2 n ≤ 52)]

/-- Closed form of the nonnegative `round_score` pipeline below
`5 * 2^50`: the nearest multiple of 5, remainder 2 rounding down and
remainder 3 rounding up. -/
theorem roundScoreNat_eq (n : Nat) (h : n < 5 * 2 ^ 50) :
    roundScoreNat n = 5 * ((n + 2) / 5) := by
  have hfl : flNat n = n := flNat_small n (by norm_num at h ⊢; omega)
  simp only [roundScoreNat, hfl]
  by_cases h0 : n = 0
  · simp [roundQuotFifth, h0]
  · rw [roundQuotFifth_eq n (by omega) h]
    ring

/-- C10 (amended): for every integer score `s` with `|s| < 5 * 2^50`,
`round_score(s)` returns the unique multiple of 5 nearest to `s` (absolute
difference at most 2); because `s` is an integer the half-way case never
arises, so a remainder of 2 (mod 5) rounds to the nearer lower multiple
and 3 to the nearer upper multiple.  (The original claim's domain — the
whole exactly-representable f64 range — fails: see the counterexample.) -/
theorem round_score_nearest_amended (s : Int) (h : s.natAbs < 5 * 2 ^ 50) :
    roundScore s % 5 = 0 ∧ (roundScore s - s).natAbs ≤ 2 ∧
    (s % 5 = 2 → roundScore s = s - 2) ∧ (s % 5 = 3 → roundScore s = s + 2) := by
  simp only [roundScore]
  split_ifs with hs
  · rw [roundScoreNat_eq s.toNat (by omega)]
    omega
  · rw [roundScoreNat_eq (-s).toNat (by omega)]
    omega

/-- Counterexample for C10 as stated: `s = 5 * 2^50 + 2` is exactly
representable (below `2^53`), but the f64 quotient `s / 5.0` lands in a
binade whose spacing is `0.25`, so the exact quotient `...24.4` rounds to
the double `...24.5` and `f64::round` takes it away from zero: the result
is `s + 3`, not the nearest multiple `s - 2`. -/
theorem round_score_nearest_cex :
    ((5629499534213122 : Int).natAbs < 2 ^ 53) ∧
    roundScore 5629499534213122 = 5629499534213125 ∧
    ¬((roundScore 5629499534213122 - 5629499534213122).natAbs ≤ 2) := by
  refine ⟨by norm_num, ?_, ?_⟩ <;> decide

/-- Witness for C10: `round_score 17 = 15`, the nearest multiple of 5. -/
theorem round_score_nearest_witness :
    (17 : Int).natAbs < 5 * 2 ^ 50 ∧
    (roundScore 17 % 5 = 0 ∧ (roundScore 17 - 17).natAbs ≤ 2 ∧
      ((17:Int) % 5 = 2 → roundScore 17 = 17 - 2) ∧
      ((17:Int) % 5 = 3 → roundScore 17 = 17 + 2)) :=
  ⟨by norm_num, round_score_nearest_amended 17 (by norm_num)⟩

end Libtarock
